import Mathlib

/-!
Verification of `scripts/generate_today.py` (movienightgpt).

The script is shallowly embedded below.  External HTTP services (YouTube
search, YouTube videos, TMDB search, TMDB details, Wikidata SPARQL) are
modelled as oracle functions collected in an `Env` record; the script's own
logic (duration parsing, title cleaning, validation, enrichment, row filling,
the fallback pass and the orchestration in `main`) is translated function by
function.  Python strings are modelled as Lean `String`/`List Char`;
Python `set` becomes a `List String` used only through membership; a
`dict | None` field becomes `Option`; falsiness of a string is the test
`= ""`.  Python `re` subtleties are preserved: in both anchored patterns
(`^...$`) the `$` matches either at the end of the string or just before a
single final newline character, and word characters for the two word-boundary
patterns are modelled as ASCII alphanumerics plus underscore.  Writing the
output artifact happens in the script only after `main` has assembled the
payload, so the embedding returns `Except String Payload`: an `Except.error`
is a `SystemExit` abort on which no artifact is written.
-/

/-- The newline character, written via its code point. -/
def nlChar : Char := Char.ofNat 10

/-- A one-character string holding a single quote (code point 39). -/
def sqStr : String := String.singleton (Char.ofNat 39)

/-- Python `str.strip` whitespace test, for the ASCII whitespace characters
(space, tab, newline, vertical tab, form feed, carriage return). -/
def pyWs (c : Char) : Bool := c.toNat = 32 || (9 ≤ c.toNat && c.toNat ≤ 13)

/-- Python `str.strip` on a character list: drop whitespace from both ends. -/
def pyStripList (cs : List Char) : List Char :=
  ((cs.dropWhile pyWs).reverse.dropWhile pyWs).reverse

/-- Python `str.strip`. -/
def pyStrip (s : String) : String := String.mk (pyStripList s.data)

/-- Word characters of the script's regexes (`\w`-style class used by `\b`),
modelled as ASCII alphanumerics plus underscore. -/
def wordChar (c : Char) : Bool := c.isAlphanum || c = '_'

/-- Characters allowed by `YT_ID_RE`, the class `[A-Za-z0-9_-]`. -/
def idChar (c : Char) : Bool := c.isAlphanum || c = '_' || c = '-'

/-- `YT_ID_RE.match(s)`: the anchored pattern `^[A-Za-z0-9_-]{11}$` under
Python semantics, where `$` matches at the end of the string or just before a
final newline.  Hence: eleven class characters, optionally followed by one
trailing newline. -/
def ytIdOk (s : String) : Bool :=
  (s.data.length = 11 && s.data.all idChar) ||
    (s.data.length = 12 && (s.data.take 11).all idChar &&
      s.data.getLast? = some nlChar)

/-- Numeric value of a digit run, as Python `int` on a decimal string. -/
def digitsVal (ds : List Char) : Nat :=
  List.foldl (fun a c => a * 10 + (c.toNat - 48)) 0 ds

/-- One optional regex group `(?:(\d+)X)?` of the duration pattern: if the
input starts with a digit run immediately followed by the letter, consume it
and return its value, otherwise leave the input unchanged. -/
def tryUnit (letter : Char) (cs : List Char) : Option Nat × List Char :=
  match cs.takeWhile Char.isDigit, cs.dropWhile Char.isDigit with
  | [], _ => (none, cs)
  | _ :: _, [] => (none, cs)
  | ds, c :: rest => if c = letter then (some (digitsVal ds), rest) else (none, cs)

/-- Python `$` (no MULTILINE): succeeds on the empty remainder or on a single
remaining newline character. -/
def pyEnd (cs : List Char) : Bool :=
  match cs with
  | [] => true
  | [c] => c = nlChar
  | _ => false

/-- `iso8601_duration_to_minutes`: match `^PT(?:(\d+)H)?(?:(\d+)M)?(?:(\d+)S)?$`
and return `h*60 + m + (1 if s >= 30 else 0)`, or `0` when the pattern does
not match. -/
def iso8601_duration_to_minutes (d : String) : Nat :=
  match d.data with
  | p :: t :: rest =>
    if p = 'P' ∧ t = 'T' then
      let hr := tryUnit 'H' rest
      let mr := tryUnit 'M' hr.2
      let sr := tryUnit 'S' mr.2
      if pyEnd sr.2 then
        hr.1.getD 0 * 60 + mr.1.getD 0 + (if 30 ≤ sr.1.getD 0 then 1 else 0)
      else 0
    else 0
  | _ => 0

/-- The word of `EXCLUDE_TITLE_RE`, lowercased. -/
def docWord : List Char := "documentary".data

/-- Case-insensitive prefix match: if the pattern matches a prefix of the
input (comparing lowercased characters), return the remainder. -/
def ciStartRest : List Char → List Char → Option (List Char)
  | [], s => some s
  | _ :: _, [] => none
  | p :: ps, c :: cs => if p.toLower = c.toLower then ciStartRest ps cs else none

/-- `\b` before a match position: start of string, or previous character is
not a word character. -/
def boundaryPrev (prev : Option Char) : Bool :=
  match prev with
  | none => true
  | some c => !wordChar c

/-- `\b` after a match: end of string, or next character is not a word
character. -/
def boundaryNext (rest : List Char) : Bool :=
  match rest with
  | [] => true
  | c :: _ => !wordChar c

/-- Scanner for `EXCLUDE_TITLE_RE.search`: try a whole-word case-insensitive
occurrence of `documentary` at each position. -/
def exclGo (prev : Option Char) : List Char → Bool
  | [] => false
  | c :: cs =>
    (boundaryPrev prev &&
      (match ciStartRest docWord (c :: cs) with
       | some rest => boundaryNext rest
       | none => false)) ||
    exclGo (some c) cs

/-- `EXCLUDE_TITLE_RE.search(s)`: case-insensitive whole-word `documentary`. -/
def exclMatches (s : String) : Bool := exclGo none s.data

/-- `MIN_MINUTES`. -/
def MIN_MINUTES : Nat := 75

/-- The alternatives of the boilerplate-token pattern in
`clean_title_for_tmdb`, in the source's order. -/
def junkTokens : List (List Char) :=
  ["full movie", "full-film", "full film", "hd", "4k", "1080p", "720p",
   "english"].map String.data

/-- Try the token alternatives in order at the current position; a token
matches when it is a case-insensitive prefix and is followed by a `\b`
boundary (all tokens end in word characters). -/
def tryJunk : List (List Char) → List Char → Option (List Char)
  | [], _ => none
  | t :: ts, s =>
    match ciStartRest t s with
    | some rest => if boundaryNext rest then some rest else tryJunk ts s
    | none => tryJunk ts s

/-- Fuel-indexed driver of the first `re.sub` of `clean_title_for_tmdb`:
remove every whole-word case-insensitive occurrence of a boilerplate token,
scanning left to right and continuing after each removed occurrence.  Each
step consumes at least one character, so any fuel at least the input length
is enough (`removeJunk_eq` below shows the fuel-free recurrence). -/
def removeJunkGo (fuel : Nat) (prev : Option Char) (s : List Char) :
    List Char :=
  match fuel with
  | 0 => s
  | fuel + 1 =>
    match s with
    | [] => []
    | c :: cs =>
      if boundaryPrev prev then
        match tryJunk junkTokens (c :: cs) with
        | some rest =>
          removeJunkGo fuel (some ((c :: cs).getLast (by simp))) rest
        | none => c :: removeJunkGo fuel (some c) cs
      else c :: removeJunkGo fuel (some c) cs

/-- The first `re.sub` of `clean_title_for_tmdb`. -/
def removeJunk (prev : Option Char) (s : List Char) : List Char :=
  removeJunkGo s.length prev s

/-- Bracket-class characters of the second `re.sub` pattern. -/
def bracketChar (c : Char) : Bool :=
  c = '[' || c = ']' || c = '(' || c = ')' || c = '|'

/-- After an opening bracket-class character, find the lazy `.*?` closing
position: the remainder after the first following bracket-class character,
with failure if a newline intervenes (`.` does not match newline). -/
def scanClose : List Char → Option (List Char)
  | [] => none
  | c :: cs =>
    if bracketChar c then some cs
    else if c = nlChar then none
    else scanClose cs

/-- Fuel-indexed driver of the second `re.sub`: replace every lazy
`[\[\]\(\)\|].*?[\[\]\(\)\|]` match by a single space, scanning left to
right (fuel at least the input length is enough, see
`removeBrackets_eq`). -/
def removeBracketsGo (fuel : Nat) (s : List Char) : List Char :=
  match fuel with
  | 0 => s
  | fuel + 1 =>
    match s with
    | [] => []
    | c :: cs =>
      if bracketChar c then
        match scanClose cs with
        | some rest => ' ' :: removeBracketsGo fuel rest
        | none => c :: removeBracketsGo fuel cs
      else c :: removeBracketsGo fuel cs

/-- The second `re.sub`. -/
def removeBrackets (s : List Char) : List Char := removeBracketsGo s.length s

/-- The third `re.sub`: collapse every whitespace run to a single space. -/
def collapseWsGo (prevWs : Bool) : List Char → List Char
  | [] => []
  | c :: cs =>
    if pyWs c then
      (if prevWs then collapseWsGo true cs else ' ' :: collapseWsGo true cs)
    else c :: collapseWsGo false cs

/-- `clean_title_for_tmdb`: strip boilerplate tokens, remove bracketed
segments, collapse whitespace, strip, and truncate to 120 characters. -/
def clean_title_for_tmdb (title : String) : String :=
  String.mk ((pyStripList (collapseWsGo false
    (removeBrackets (removeJunk none title.data)))).take 120)

/-- `ROW_TITLES`. -/
def ROW_TITLES : List String :=
  ["Recently Uploaded", "Popular", "Political", "War", "History"]

/-- `ROW_QUERIES` (a dict in the source, keyed by the row titles). -/
def ROW_QUERIES (row : String) : List String :=
  if row = "Recently Uploaded" then
    ["political thriller full movie", "war full movie",
     "historical drama full movie", "history war full movie"]
  else if row = "Popular" then
    ["political thriller full movie", "war full movie",
     "historical drama full movie", "history war full movie"]
  else if row = "Political" then
    ["political thriller full movie", "political drama full movie",
     "conspiracy thriller full movie", "spy political thriller full movie"]
  else if row = "War" then
    ["war full movie", "ww2 full movie", "vietnam war full movie",
     "military thriller full movie"]
  else if row = "History" then
    ["historical drama full movie", "based on true events full movie",
     "period drama full movie", "history war drama full movie"]
  else []

/-- `WIKIDATA_AWARD_QIDS`, the fixed allow-list mapping. -/
def WIKIDATA_AWARD_QIDS : List (String × String) :=
  [("Q103360", "Oscar Best Picture"),
   ("Q106291", "Oscar Best Director"),
   ("Q1033603", "Oscar Best Original Screenplay"),
   ("Q1033604", "Oscar Best Adapted Screenplay"),
   ("Q106301", "Golden Globe Best Motion Picture (Drama)"),
   ("Q106295", "Golden Globe Best Motion Picture (Musical/Comedy)"),
   ("Q106296", "Golden Globe Best Director"),
   ("Q106297", "Golden Globe Best Screenplay")]

/-- Lookup in the allow-list (`qid in WIKIDATA_AWARD_QIDS` plus the access). -/
def awardLabel (qid : String) : Option String :=
  (WIKIDATA_AWARD_QIDS.find? (fun p => p.1 = qid)).map (fun p => p.2)

/-- `uri.rsplit("/", 1)[-1]`: the segment after the last slash (the whole
string when no slash occurs). -/
def lastSegment (s : String) : String :=
  String.mk ((s.data.reverse.takeWhile (fun c => c ≠ '/')).reverse)

/-- One entry of a search page: `(it.get("id") or \x7b\x7d).get("videoId")`. -/
structure SearchItem where
  videoId : Option String
deriving DecidableEq

/-- A page returned by the YouTube search endpoint. -/
structure SearchPage where
  items : List SearchItem
  nextPageToken : Option String
deriving DecidableEq

/-- A video snippet: title and the thumbnails dict (variant name to the
optional `url` field of that variant). -/
structure Snippet where
  title : Option String
  thumbnails : Option (List (String × Option String))
deriving DecidableEq

/-- A full video record returned by the videos endpoint; `duration` models
`(v.get("contentDetails") or \x7b\x7d).get("duration", "")` before the
default is applied. -/
structure Video where
  id : String
  snippet : Option Snippet
  duration : Option String
deriving DecidableEq

/-- A TMDB search result (only its `id` field is used). -/
structure TmdbHit where
  id : Option Int
deriving DecidableEq

/-- One cast entry of the TMDB credits. -/
structure CastEntry where
  name : Option String
deriving DecidableEq

/-- One crew entry of the TMDB credits. -/
structure CrewEntry where
  job : Option String
  name : Option String
deriving DecidableEq

/-- The TMDB detail record, with the fields the script reads; `imdb_id`
models `(details.get("external_ids") or \x7b\x7d).get("imdb_id")`. -/
structure TmdbDetails where
  release_date : Option String
  crew : Option (List CrewEntry)
  cast : Option (List CastEntry)
  poster_path : Option String
  imdb_id : Option String
  title : Option String
deriving DecidableEq

/-- An output item, as built by `build_item_from_video`. -/
structure Item where
  title : String
  year : String
  director : String
  leads : List String
  posterUrl : String
  youtubeId : String
  awards : List String
deriving DecidableEq

/-- The final payload assembled by `main`. -/
structure Payload where
  date : String
  criteria : String
  row_titles : List String
  items : List Item
deriving DecidableEq

/-- A recorded call to the search service: query, order, page token and the
`maxResults` parameter. -/
structure SearchReq where
  q : String
  order : String
  pageToken : Option String
  maxResults : Nat
deriving DecidableEq

/-- The external collaborators: YouTube search and videos endpoints, TMDB
search and details, the Wikidata query service (`none` models a non-200
response), the `random.shuffle` outcome, and the current UTC date. -/
structure Env where
  search : String → String → Option String → Nat → SearchPage
  videos : List String → List Video
  tmdbSearch : String → Option TmdbHit
  tmdbDetails : Int → TmdbDetails
  wikidata : String → Option (List String)
  shuffle : List String → List String
  today : String

/-- The thumbnail priority order of `pick_best_thumbnail`. -/
def thumbKeys : List String :=
  ["maxres", "standard", "high", "medium", "default"]

/-- `k in thumbs and thumbs[k].get("url")` data: outer `Option` is key
presence, inner is the `url` field. -/
def thumbUrl (thumbs : List (String × Option String)) (k : String) :
    Option (Option String) :=
  (thumbs.find? (fun p => p.1 = k)).map (fun p => p.2)

/-- The loop of `pick_best_thumbnail` over the priority keys: return the
first truthy url, else the empty string. -/
def pickThumbGo (thumbs : List (String × Option String)) :
    List String → String
  | [] => ""
  | k :: ks =>
    match thumbUrl thumbs k with
    | some (some u) => if u = "" then pickThumbGo thumbs ks else u
    | _ => pickThumbGo thumbs ks

/-- `pick_best_thumbnail(snippet)`. -/
def pick_best_thumbnail (snippet : Snippet) : String :=
  pickThumbGo (snippet.thumbnails.getD []) thumbKeys

/-- Code-point lexicographic comparison of character lists: Python string
`<=`. -/
def lexLe : List Char → List Char → Bool
  | [], _ => true
  | _ :: _, [] => false
  | a :: as, b :: bs =>
    if a.toNat < b.toNat then true
    else if b.toNat < a.toNat then false
    else lexLe as bs

/-- Python string comparison `a <= b` (code points, lexicographic). -/
def strLe (a b : String) : Bool := lexLe a.data b.data

/-- Python `sorted` on strings: ascending code-point lexicographic order (on
the duplicate-free lists it is applied to any correct sort yields the same
list, so insertion sort models it exactly). -/
def sortStrings (l : List String) : List String :=
  l.insertionSort (fun a b => strLe a b = true)

/-- `dict.fromkeys` driver: keep the first occurrence of each string. -/
def dedupGo (ks : List String) : List String → List String
  | [] => []
  | x :: xs => if x ∈ ks then dedupGo ks xs else x :: dedupGo (x :: ks) xs

/-- `list(dict.fromkeys(out))`. -/
def dedupFirst (l : List String) : List String := dedupGo [] l

/-- `wikidata_awards_for_film`: empty id gives an empty list with no query;
a non-200 response gives an empty list; otherwise take the segment after the
last slash of each binding value, keep those in the allow-list, map to their
labels, dedup and sort ascending. -/
def wikidata_awards_for_film (env : Env) (imdb_id : String) : List String :=
  if imdb_id = "" then []
  else
    match env.wikidata imdb_id with
    | none => []
    | some bindings =>
      sortStrings (dedupFirst
        (bindings.filterMap (fun v => awardLabel (lastSegment v))))

/-- The snippet default `v.get("snippet") or \x7b\x7d`. -/
def snipOf (v : Video) : Snippet := v.snippet.getD ⟨none, none⟩

/-- The stripped raw title `(snippet.get("title") or "").strip()`. -/
def strippedTitle (v : Video) : String := pyStrip ((snipOf v).title.getD "")

/-- The parsed duration of a video record. -/
def minutesOf (v : Video) : Nat :=
  iso8601_duration_to_minutes (v.duration.getD "")

/-- `release_date[:4]` validated by `str.isdigit` (nonempty, all digits). -/
def yearOf (release_date : Option String) : String :=
  match (release_date.getD "").data.take 4 with
  | [] => ""
  | ds => if ds.all Char.isDigit then String.mk ds else ""

/-- The first crew entry whose job is exactly `Director` and whose name is
truthy; its name, else the empty string. -/
def firstDirector (crew : List CrewEntry) : String :=
  match crew.find? (fun c =>
      c.job = some "Director" && (c.name.getD "") ≠ "") with
  | some c => c.name.getD ""
  | none => ""

/-- `c.get("name")` truthiness filter used for the leads. -/
def truthyName (c : CastEntry) : Option String :=
  match c.name with
  | some n => if n = "" then none else some n
  | none => none

/-- `leads = [c.get("name") for c in cast[:2] if c.get("name")][:2]`. -/
def leadsOf (cast : List CastEntry) : List String :=
  (((cast.take 2).filterMap truthyName)).take 2

/-- The TMDB poster url, or the empty string when the path is absent or
falsy. -/
def posterOf (poster_path : Option String) : String :=
  match poster_path with
  | some p => if p = "" then "" else "https://image.tmdb.org/t/p/w500" ++ p
  | none => ""

/-- The item built when the TMDB lookup is skipped or yields no usable hit:
all enrichment fields empty, poster from the video's own thumbnails. -/
def plainItem (title : String) (snip : Snippet) (vid : String) : Item :=
  ⟨title, "", "", [], pick_best_thumbnail snip, vid, []⟩

/-- The item built from a TMDB detail record (the enriched branch). -/
def enrichedItem (env : Env) (title0 : String) (snip : Snippet) (vid : String)
    (d : TmdbDetails) : Item :=
  let posterFromTmdb := posterOf d.poster_path
  ⟨(match d.title with
    | some t => if t = "" then title0 else t
    | none => title0),
   yearOf d.release_date,
   firstDirector (d.crew.getD []),
   leadsOf (d.cast.getD []),
   (if posterFromTmdb = "" then pick_best_thumbnail snip else posterFromTmdb),
   vid,
   wikidata_awards_for_film env (pyStrip (d.imdb_id.getD ""))⟩

/-- `build_item_from_video`: validation (id format, nonempty stripped title,
exclusion word, minimum duration) followed by best-effort TMDB/Wikidata
enrichment. -/
def build_item_from_video (env : Env) (v : Video) : Option Item :=
  if ytIdOk v.id = false then none
  else
    let title0 := strippedTitle v
    if title0 = "" then none
    else if exclMatches title0 then none
    else if minutesOf v < MIN_MINUTES then none
    else
      let tmdb_title := clean_title_for_tmdb title0
      let hit := if tmdb_title = "" then none else env.tmdbSearch tmdb_title
      match hit with
      | some h =>
        match h.id with
        | some i =>
          if i = 0 then some (plainItem title0 (snipOf v) v.id)
          else some (enrichedItem env title0 (snipOf v) v.id (env.tmdbDetails i))
        | none => some (plainItem title0 (snipOf v) v.id)
      | none => some (plainItem title0 (snipOf v) v.id)

/-- Collect the not-yet-seen stripped candidate ids of one search page, in
page order (the per-page id collection loop of both filling passes). -/
def collectNewIds (sitems : List SearchItem) (seen : List String) :
    List String :=
  sitems.filterMap (fun it =>
    let vid := pyStrip (it.videoId.getD "")
    if vid ≠ "" ∧ vid ∉ seen then some vid else none)

/-- The per-video loop of `fill_row`: skip seen ids and rejected candidates;
on acceptance add the id to the seen set and append the item, returning out
of the whole row fill as soon as four items are reached. -/
def processVids (env : Env) :
    List Video → List String → List Item → List String × List Item
  | [], seen, items => (seen, items)
  | v :: rest, seen, items =>
    if v.id ∈ seen then processVids env rest seen items
    else
      match build_item_from_video env v with
      | none => processVids env rest seen items
      | some item =>
        if 4 ≤ (items ++ [item]).length then (v.id :: seen, items ++ [item])
        else processVids env rest (v.id :: seen) (items ++ [item])

/-- The truthiness test on `data.get("nextPageToken")`: an absent or empty
token abandons the query term. -/
def nextTok (page : SearchPage) : Option String :=
  match page.nextPageToken with
  | some t => if t = "" then none else some t
  | none => none

/-- The pagination loop of `fill_row` (`for _ in range(4)`), also returning
the list of search requests issued.  A page with no new ids advances to the
next token or abandons the term; otherwise the page's videos are processed
and the loop stops as soon as four items are reached. -/
def fillPages (env : Env) (q order : String) :
    Nat → Option String → List String → List Item →
    List String × List Item × List SearchReq
  | 0, _, seen, items => (seen, items, [])
  | fuel + 1, tok, seen, items =>
    let page := env.search q order tok 25
    let ids := (collectNewIds page.items seen).take 50
    if ids.isEmpty then
      match nextTok page with
      | none => (seen, items, [⟨q, order, tok, 25⟩])
      | some t =>
        let r := fillPages env q order fuel (some t) seen items
        (r.1, r.2.1, ⟨q, order, tok, 25⟩ :: r.2.2)
    else
      let pv := processVids env (env.videos ids) seen items
      if 4 ≤ pv.2.length then (pv.1, pv.2, [⟨q, order, tok, 25⟩])
      else
        match nextTok page with
        | none => (pv.1, pv.2, [⟨q, order, tok, 25⟩])
        | some t =>
          let r := fillPages env q order fuel (some t) pv.1 pv.2
          (r.1, r.2.1, ⟨q, order, tok, 25⟩ :: r.2.2)

/-- The query-term loop of `fill_row`: each term paginates up to four pages;
the loop stops once four items are present. -/
def fillQueries (env : Env) (order : String) :
    List String → List String → List Item →
    List String × List Item × List SearchReq
  | [], seen, items => (seen, items, [])
  | q :: qs, seen, items =>
    let r := fillPages env q order 4 none seen items
    if 4 ≤ r.2.1.length then r
    else
      let r2 := fillQueries env order qs r.1 r.2.1
      (r2.1, r2.2.1, r.2.2 ++ r2.2.2)

/-- `fill_row`: shuffle the row's query pool, then run the query loop with an
empty accepted list.  Returns the final seen set, the row's items and the
issued search requests. -/
def fill_row (env : Env) (row_name order : String) (seen : List String) :
    List String × List Item × List SearchReq :=
  fillQueries env order (env.shuffle (ROW_QUERIES row_name)) seen []

/-- The per-video loop of the fallback pass in `main`: the four-item test is
performed before each video. -/
def fbVids (env : Env) :
    List Video → List String → List Item → List String × List Item
  | [], seen, items => (seen, items)
  | v :: rest, seen, items =>
    if 4 ≤ items.length then (seen, items)
    else if v.id ∈ seen then fbVids env rest seen items
    else
      match build_item_from_video env v with
      | none => fbVids env rest seen items
      | some item => fbVids env rest (v.id :: seen) (items ++ [item])

/-- The generic fallback query pool of `main`. -/
def fallback_pool : List String :=
  ["full movie", "political thriller full movie", "war full movie",
   "historical drama full movie"]

/-- The fallback pass of `main`: one single-page search per generic query,
stopping once four items are present. -/
def fallbackPass (env : Env) (order : String) :
    List String → List String → List Item → List String × List Item
  | [], seen, items => (seen, items)
  | fb :: rest, seen, items =>
    if 4 ≤ items.length then (seen, items)
    else
      let page := env.search fb order none 25
      let ids := collectNewIds page.items seen
      let pv := fbVids env (env.videos (ids.take 50)) seen items
      fallbackPass env order rest pv.1 pv.2

/-- The per-row sort order selection in `main`. -/
def orderFor (row : String) : String :=
  if row = "Recently Uploaded" then "date"
  else if row = "Popular" then "viewCount"
  else "relevance"

/-- The `SystemExit` message raised on a cardinality shortfall. -/
def shortMsg (row : String) (n : Nat) : String :=
  "Could not fill row " ++ sqStr ++ row ++ sqStr ++
    " with 4 valid movies. Found " ++ toString n ++ "."

/-- One row of `main`: the primary fill, then the fallback pass when the row
is short. -/
def processRow (env : Env) (row : String) (seen : List String) :
    List String × List Item :=
  let r := fill_row env row (orderFor row) seen
  if r.2.1.length < 4 then fallbackPass env (orderFor row) fallback_pool r.1 r.2.1
  else (r.1, r.2.1)

/-- The row loop of `main`: abort with the shortfall message on the first
short row, otherwise accumulate the flattened item list. -/
def runRows (env : Env) :
    List String → List String → Except String (List String × List Item)
  | [], seen => Except.ok (seen, [])
  | row :: rest, seen =>
    let r := processRow env row seen
    if r.2.length < 4 then Except.error (shortMsg row r.2.length)
    else
      match runRows env rest r.1 with
      | Except.error e => Except.error e
      | Except.ok (seenF, tail) => Except.ok (seenF, r.2 ++ tail)

/-- The static criteria string of the payload. -/
def criteriaStr : String :=
  "Public daily mix: drama, history, war, political thrillers. Secondary action thrillers."

/-- The body of `main` (renamed `mainRun`, since Lean reserves the name `main` for executables): run the five rows from an empty seen set; on success assemble the
payload handed to the output writer, on shortfall abort with the message (the
artifact is written only on the `Except.ok` path). -/
def mainRun (env : Env) : Except String Payload :=
  match runRows env ROW_TITLES [] with
  | Except.error e => Except.error e
  | Except.ok (_, allItems) =>
    Except.ok ⟨env.today, criteriaStr, ROW_TITLES, allItems⟩

/-- Spec-side rendering of "a compact duration string of the form
`PT[nH][nM][nS]`" as a parser returning the three components (defaulting
absent ones to zero): literal `P` and `T`, then an optional digit run with
each fixed letter, in order.  With `allowNl := false` the string must end
right after the components (the strict reading of the spec); with
`allowNl := true` one trailing newline is additionally tolerated, which is
what Python's `$` anchor accepts. -/
def parsePTwith (allowNl : Bool) (d : String) : Option (Nat × Nat × Nat) :=
  match d.data with
  | p :: t :: rest =>
    if p = 'P' ∧ t = 'T' then
      let hr := tryUnit 'H' rest
      let mr := tryUnit 'M' hr.2
      let sr := tryUnit 'S' mr.2
      match sr.2 with
      | [] => some (hr.1.getD 0, mr.1.getD 0, sr.1.getD 0)
      | [c] =>
        if allowNl && c = nlChar then some (hr.1.getD 0, mr.1.getD 0, sr.1.getD 0)
        else none
      | _ => none
    else none
  | _ => none

/-- The strict spec form: no trailing newline. -/
def parsePTstrict : String → Option (Nat × Nat × Nat) := parsePTwith false

/-- The form accepted by the code's anchored pattern: optionally one
trailing newline. -/
def parsePTpy : String → Option (Nat × Nat × Nat) := parsePTwith true

/-- A fully degraded environment: empty search pages, no video records, no
TMDB hit, empty detail record, non-200 Wikidata, identity shuffle. -/
def envNone : Env :=
  ⟨fun _ _ _ _ => ⟨[], none⟩, fun _ => [], fun _ => none,
   fun _ => ⟨none, none, none, none, none, none⟩, fun _ => none,
   fun qs => qs, "2026-01-01"⟩

/-- Claim-side identifier format check, read literally from the spec:
exactly 11 characters drawn from alphanumerics plus underscore and hyphen. -/
def specIdOk (s : String) : Prop :=
  s.data.length = 11 ∧ ∀ c ∈ s.data, idChar c

instance (s : String) : Decidable (specIdOk s) := by
  unfold specIdOk; infer_instance

/-- The TMDB hit considered by `build_item_from_video` (skipping the search
when the cleaned title is empty). -/
def hitOf (env : Env) (v : Video) : Option TmdbHit :=
  if clean_title_for_tmdb (strippedTitle v) = "" then none
  else env.tmdbSearch (clean_title_for_tmdb (strippedTitle v))

/-- The canonical title the enrichment adopts, if any: the TMDB hit must
exist with a truthy id and the fetched detail record must carry a truthy
`title` (the source's `if details.get("title")`); in every other case no
canonical title is adopted and the raw title is kept. -/
def canonicalTitle (env : Env) (v : Video) : Option String :=
  match hitOf env v with
  | some h =>
    match h.id with
    | some i =>
      if i = 0 then none
      else
        match (env.tmdbDetails i).title with
        | some t => if t = "" then none else some t
        | none => none
    | none => none
  | none => none

/-- A candidate video whose id is eleven class characters followed by a
newline: twelve characters in all, accepted by the code's pattern. -/
def vidNl : Video :=
  ⟨"abcdefghijk" ++ String.singleton nlChar,
   some ⟨some "Great War Saga", none⟩, some "PT2H"⟩

/-- A valid long candidate used as a concrete input below. -/
def vidW : Video :=
  ⟨"abcdefghijk", some ⟨some "Great War Saga", none⟩, some "PT2H"⟩

/-- A valid candidate whose entire title is a boilerplate token, so its
cleaned title is empty. -/
def vidHD : Video :=
  ⟨"abcdefghijk", some ⟨some "HD", none⟩, some "PT80M"⟩

/-- An environment whose TMDB search always hits movie 5 but whose detail
record has every field missing. -/
def envDet : Env :=
  ⟨fun _ _ _ _ => ⟨[], none⟩, fun _ => [], fun _ => some ⟨some 5⟩,
   fun _ => ⟨none, none, none, none, none, none⟩, fun _ => none,
   fun qs => qs, "2026-01-01"⟩

/-- An environment whose TMDB detail record supersedes the title with a
canonical title containing the excluded word. -/
def envDoc : Env :=
  ⟨fun _ _ _ _ => ⟨[], none⟩, fun _ => [], fun _ => some ⟨some 7⟩,
   fun _ => ⟨none, none, none, none, none, some "The Documentary"⟩,
   fun _ => none, fun qs => qs, "2026-01-01"⟩

/-- Claim-side leads selection, read literally from the spec: the names of
the first two cast entries that have a non-empty name, in listed order. -/
def specLeads (cast : List CastEntry) : List String :=
  (cast.filterMap truthyName).take 2

/-- The cast list used in the C8 counterexample: an empty-named entry billed
first, then two named entries. -/
def castCE : List CastEntry :=
  [⟨some ""⟩, ⟨some "Alice Alpha"⟩, ⟨some "Bob Beta"⟩]

/-- An environment whose TMDB detail record has the `castCE` cast. -/
def envCast : Env :=
  ⟨fun _ _ _ _ => ⟨[], none⟩, fun _ => [], fun _ => some ⟨some 3⟩,
   fun _ => ⟨none, none, some castCE, none, none, none⟩, fun _ => none,
   fun qs => qs, "2026-01-01"⟩

/-- The per-key test of `pick_best_thumbnail`: a usable url for a variant
key (present with a truthy url). -/
def thumbPick (thumbs : List (String × Option String)) (k : String) :
    Option String :=
  match thumbUrl thumbs k with
  | some (some u) => if u = "" then none else some u
  | _ => none

/-- Claim-side best thumbnail: the url of the first priority variant that is
present with a url, if any. -/
def firstThumb (snippet : Snippet) : Option String :=
  thumbKeys.findSome? (thumbPick (snippet.thumbnails.getD []))

/-- The Wikidata stub of the C9 witness: four binding values — identifiers
A, B, A, C with A and C in the allow-list and B not. -/
def envAw : Env :=
  ⟨fun _ _ _ _ => ⟨[], none⟩, fun _ => [], fun _ => none,
   fun _ => ⟨none, none, none, none, none, none⟩,
   fun _ => some ["http://www.wikidata.org/entity/Q103360",
                  "http://www.wikidata.org/entity/Q99999",
                  "http://www.wikidata.org/entity/Q103360",
                  "http://www.wikidata.org/entity/Q106291"],
   fun qs => qs, "2026-01-01"⟩

/-- The run invariant tying the seen set to the accepted items: the item
ids are pairwise distinct and all recorded in the seen set. -/
def SeenOk (seen : List String) (items : List Item) : Prop :=
  (items.map (fun it => it.youtubeId)).Nodup ∧
    ∀ it ∈ items, it.youtubeId ∈ seen

/-- `Blocks k out`: the list splits into `k` consecutive blocks of exactly
four items (one per processed row). -/
def Blocks : Nat → List Item → Prop
  | 0, out => out = []
  | k + 1, out => ∃ b rest, out = b ++ rest ∧ b.length = 4 ∧ Blocks k rest

/-- The C3 witness environment: the query `war full movie` returns one page
of four fresh valid candidates and every other query returns an empty page;
the videos endpoint returns a valid long video per id; no TMDB hit; identity
shuffle. -/
def envC3 : Env :=
  ⟨fun q _ _ _ =>
      if q = "war full movie" then
        ⟨[⟨some "AAAAAAAAAA1"⟩, ⟨some "AAAAAAAAAA2"⟩,
          ⟨some "AAAAAAAAAA3"⟩, ⟨some "AAAAAAAAAA4"⟩], none⟩
      else ⟨[], none⟩,
   fun ids => ids.map (fun i => ⟨i, some ⟨some "Great War Saga", none⟩,
     some "PT2H"⟩),
   fun _ => none, fun _ => ⟨none, none, none, none, none, none⟩,
   fun _ => none, fun qs => qs, "2026-01-01"⟩

theorem ciStartRest_length {p s rest : List Char}
    (h : ciStartRest p s = some rest) : rest.length + p.length = s.length := by
  induction p generalizing s rest with
  | nil => simp [ciStartRest] at h; simp [h]
  | cons c cs ih =>
    cases s with
    | nil => simp [ciStartRest] at h
    | cons d ds =>
      simp only [ciStartRest] at h
      split at h
      · have := ih h
        simp [List.length_cons]; omega
      · exact absurd h (by simp)

theorem tryJunk_length {ts : List (List Char)} {s rest : List Char}
    (hts : ∀ t ∈ ts, t ≠ []) (h : tryJunk ts s = some rest) :
    rest.length < s.length := by
  induction ts with
  | nil => simp [tryJunk] at h
  | cons t ts ih =>
    simp only [tryJunk] at h
    have ht : t ≠ [] := hts t (by simp)
    split at h
    · next hrest =>
      split at h
      · cases h
        have := ciStartRest_length hrest
        have : t.length ≠ 0 := fun hz => ht (List.eq_nil_of_length_eq_zero hz)
        omega
      · exact ih (fun u hu => hts u (by simp [hu])) h
    · exact ih (fun u hu => hts u (by simp [hu])) h

theorem junkTokens_ne_nil : ∀ t ∈ junkTokens, t ≠ [] := by decide

/-- Enough fuel makes the driver fuel-insensitive. -/
theorem removeJunkGo_fuel (fuel fuel2 : Nat) (prev : Option Char)
    (s : List Char) (hf : s.length ≤ fuel) (hf2 : s.length ≤ fuel2) :
    removeJunkGo fuel prev s = removeJunkGo fuel2 prev s := by
  induction fuel generalizing fuel2 prev s with
  | zero =>
    have hs : s = [] := List.eq_nil_of_length_eq_zero (Nat.le_zero.mp hf)
    subst hs
    cases fuel2 <;> simp [removeJunkGo]
  | succ fuel ih =>
    cases s with
    | nil => cases fuel2 <;> simp [removeJunkGo]
    | cons c cs =>
      cases fuel2 with
      | zero => simp at hf2
      | succ fuel2 =>
        simp only [List.length_cons] at hf hf2
        simp only [removeJunkGo]
        split
        · cases htj : tryJunk junkTokens (c :: cs) with
          | some rest =>
            have hlt := tryJunk_length junkTokens_ne_nil htj
            simp only [List.length_cons] at hlt
            exact ih fuel2 _ rest (by omega) (by omega)
          | none =>
            exact congrArg _ (ih fuel2 (some c) cs (by omega) (by omega))
        · exact congrArg _ (ih fuel2 (some c) cs (by omega) (by omega))

/-- The fuel-free recurrence of `removeJunk`, matching the scan of the
source's first `re.sub`. -/
theorem removeJunk_eq (prev : Option Char) (s : List Char) :
    removeJunk prev s =
      match s with
      | [] => []
      | c :: cs =>
        if boundaryPrev prev then
          match tryJunk junkTokens (c :: cs) with
          | some rest => removeJunk (some ((c :: cs).getLast (by simp))) rest
          | none => c :: removeJunk (some c) cs
        else c :: removeJunk (some c) cs := by
  cases s with
  | nil => rfl
  | cons c cs =>
    show removeJunkGo (c :: cs).length prev (c :: cs) = _
    simp only [List.length_cons, removeJunkGo]
    split
    · cases htj : tryJunk junkTokens (c :: cs) with
      | some rest =>
        have hlt := tryJunk_length junkTokens_ne_nil htj
        simp only [List.length_cons] at hlt
        exact removeJunkGo_fuel cs.length rest.length _ rest (by omega)
          (Nat.le_refl _)
      | none => rfl
    · rfl

theorem scanClose_length {cs rest : List Char} (h : scanClose cs = some rest) :
    rest.length < cs.length := by
  induction cs with
  | nil => simp [scanClose] at h
  | cons c cs ih =>
    simp only [scanClose] at h
    split at h
    · cases h; simp
    · split at h
      · exact absurd h (by simp)
      · have := ih h; simp; omega

/-- Enough fuel makes the driver fuel-insensitive. -/
theorem removeBracketsGo_fuel (fuel fuel2 : Nat) (s : List Char)
    (hf : s.length ≤ fuel) (hf2 : s.length ≤ fuel2) :
    removeBracketsGo fuel s = removeBracketsGo fuel2 s := by
  induction fuel generalizing fuel2 s with
  | zero =>
    have hs : s = [] := List.eq_nil_of_length_eq_zero (Nat.le_zero.mp hf)
    subst hs
    cases fuel2 <;> simp [removeBracketsGo]
  | succ fuel ih =>
    cases s with
    | nil => cases fuel2 <;> simp [removeBracketsGo]
    | cons c cs =>
      cases fuel2 with
      | zero => simp at hf2
      | succ fuel2 =>
        simp only [List.length_cons] at hf hf2
        simp only [removeBracketsGo]
        split
        · cases hsc : scanClose cs with
          | some rest =>
            have hlt := scanClose_length hsc
            exact congrArg _ (ih fuel2 rest (by omega) (by omega))
          | none =>
            exact congrArg _ (ih fuel2 cs (by omega) (by omega))
        · exact congrArg _ (ih fuel2 cs (by omega) (by omega))

/-- The fuel-free recurrence of `removeBrackets`, matching the scan of the
source's second `re.sub`. -/
theorem removeBrackets_eq (s : List Char) :
    removeBrackets s =
      match s with
      | [] => []
      | c :: cs =>
        if bracketChar c then
          match scanClose cs with
          | some rest => ' ' :: removeBrackets rest
          | none => c :: removeBrackets cs
        else c :: removeBrackets cs := by
  cases s with
  | nil => rfl
  | cons c cs =>
    show removeBracketsGo (c :: cs).length (c :: cs) = _
    simp only [List.length_cons, removeBracketsGo]
    split
    · cases hsc : scanClose cs with
      | some rest =>
        have hlt := scanClose_length hsc
        exact congrArg _ (removeBracketsGo_fuel cs.length rest.length rest
          (by omega) (Nat.le_refl _))
      | none => rfl
    · rfl

theorem iso_eq_parsePTpy (d : String) :
    iso8601_duration_to_minutes d =
      match parsePTpy d with
      | some hms => hms.1 * 60 + hms.2.1 + (if 30 ≤ hms.2.2 then 1 else 0)
      | none => 0 := by
  obtain ⟨data⟩ := d
  match data with
  | [] => rfl
  | [c] => rfl
  | p :: t :: rest =>
    show iso8601_duration_to_minutes ⟨p :: t :: rest⟩ = _
    unfold iso8601_duration_to_minutes parsePTpy parsePTwith
    by_cases hpt : p = 'P' ∧ t = 'T'
    · simp only [hpt, if_true, String.data]
      match htail : (tryUnit 'S' (tryUnit 'M' (tryUnit 'H' rest).2).2).2 with
      | [] => simp [pyEnd, htail]
      | [c] =>
        by_cases hc : c = nlChar
        · simp [pyEnd, htail, hc]
        · simp [pyEnd, htail, hc]
      | a :: b :: l => simp [pyEnd, htail]
    · simp [hpt]

/-- The rejection conditions of `build_item_from_video` characterise `none`
exactly: id pattern failure, empty stripped title, exclusion-word hit, or a
parsed duration below the minimum. -/
theorem build_item_none_iff (env : Env) (v : Video) :
    build_item_from_video env v = none ↔
      (ytIdOk v.id = false ∨ strippedTitle v = "" ∨
       exclMatches (strippedTitle v) = true ∨ minutesOf v < MIN_MINUTES) := by
  by_cases h1 : ytIdOk v.id = false
  · simp [build_item_from_video, h1]
  · by_cases h2 : strippedTitle v = ""
    · simp [build_item_from_video, h1, h2]
    · by_cases h3 : exclMatches (strippedTitle v) = true
      · simp [build_item_from_video, h1, h2, h3]
      · by_cases h4 : minutesOf v < MIN_MINUTES
        · simp [build_item_from_video, h1, h2, h3, h4]
        · have hne : build_item_from_video env v ≠ none := by
            unfold build_item_from_video
            rw [if_neg h1, if_neg h2, if_neg h3, if_neg h4]
            dsimp only
            split
            · split
              · split <;> simp
              · simp
            · simp
          simp [hne, h1, h2, h3, h4]

/-- On a candidate that passes validation, `build_item_from_video` reduces to
the enrichment dispatch on the TMDB hit. -/
theorem build_item_eq (env : Env) (v : Video)
    (h1 : ytIdOk v.id = true) (h2 : strippedTitle v ≠ "")
    (h3 : exclMatches (strippedTitle v) = false)
    (h4 : MIN_MINUTES ≤ minutesOf v) :
    build_item_from_video env v =
      match hitOf env v with
      | some h =>
        match h.id with
        | some i =>
          if i = 0 then some (plainItem (strippedTitle v) (snipOf v) v.id)
          else some (enrichedItem env (strippedTitle v) (snipOf v) v.id
            (env.tmdbDetails i))
        | none => some (plainItem (strippedTitle v) (snipOf v) v.id)
      | none => some (plainItem (strippedTitle v) (snipOf v) v.id) := by
  unfold build_item_from_video hitOf
  rw [if_neg (by simp [h1]), if_neg h2, if_neg (by simp [h3]),
    if_neg (Nat.not_lt.mpr h4)]

/-- A validated candidate is never discarded: some item is produced whatever
the enrichment environment answers. -/
theorem build_item_isSome (env : Env) (v : Video)
    (h1 : ytIdOk v.id = true) (h2 : strippedTitle v ≠ "")
    (h3 : exclMatches (strippedTitle v) = false)
    (h4 : MIN_MINUTES ≤ minutesOf v) :
    ∃ it, build_item_from_video env v = some it := by
  rw [build_item_eq env v h1 h2 h3 h4]
  rcases hh : hitOf env v with _ | hit
  · exact ⟨_, rfl⟩
  · dsimp only
    rcases hid : hit.id with _ | i
    · exact ⟨_, rfl⟩
    · dsimp only
      by_cases hi : i = 0
      · exact ⟨_, by rw [if_pos hi]⟩
      · exact ⟨_, by rw [if_neg hi]⟩

/-- A produced item passed all four validation checks. -/
theorem build_item_valid (env : Env) (v : Video) (it : Item)
    (h : build_item_from_video env v = some it) :
    ytIdOk v.id = true ∧ strippedTitle v ≠ "" ∧
      exclMatches (strippedTitle v) = false ∧ MIN_MINUTES ≤ minutesOf v := by
  have hne : build_item_from_video env v ≠ none := by simp [h]
  have hc : ¬(ytIdOk v.id = false ∨ strippedTitle v = "" ∨
      exclMatches (strippedTitle v) = true ∨ minutesOf v < MIN_MINUTES) :=
    fun hx => hne ((build_item_none_iff env v).mpr hx)
  push_neg at hc
  obtain ⟨h1, h2, h3, h4⟩ := hc
  refine ⟨?_, h2, ?_, h4⟩
  · revert h1; cases ytIdOk v.id <;> simp
  · revert h3; cases exclMatches (strippedTitle v) <;> simp

/-- Every produced item carries the video's own id as `youtubeId`. -/
theorem build_item_youtubeId (env : Env) (v : Video) (it : Item)
    (h : build_item_from_video env v = some it) : it.youtubeId = v.id := by
  obtain ⟨h1, h2, h3, h4⟩ := build_item_valid env v it h
  rw [build_item_eq env v h1 h2 h3 h4] at h
  rcases hh : hitOf env v with _ | hit <;> rw [hh] at h <;> dsimp only at h
  · cases h; rfl
  · rcases hid : hit.id with _ | i <;> rw [hid] at h <;> dsimp only at h
    · cases h; rfl
    · by_cases hi : i = 0
      · rw [if_pos hi] at h; cases h; rfl
      · rw [if_neg hi] at h; cases h; rfl

/-- C5 (counterexample): the claim says a malformed input — one not of the
compact `PT[nH][nM][nS]` form — yields 0, but `"PT95M"` followed by a
newline character is not of that form (under its strict reading) and the
parser still returns 95, because the pattern's `$` accepts a final
newline. -/
theorem C5_counterexample :
    iso8601_duration_to_minutes ("PT95M" ++ String.singleton nlChar) = 95 ∧
      parsePTstrict ("PT95M" ++ String.singleton nlChar) = none ∧
      ("PT95M" ++ String.singleton nlChar) ≠ "" := by
  refine ⟨by decide, by decide, by decide⟩

/-- C5 (amended): the concrete examples hold, and for every input the parser
returns `h*60 + m + (1 if s >= 30 else 0)` exactly when the input matches the
compact `PT[nH][nM][nS]` form possibly followed by a single trailing newline
(which Python's `$` anchor tolerates), and 0 — never an exception —
otherwise. -/
theorem C5_amended_duration :
    iso8601_duration_to_minutes "PT2H10M" = 130 ∧
    iso8601_duration_to_minutes "PT95M" = 95 ∧
    iso8601_duration_to_minutes "PT1H" = 60 ∧
    iso8601_duration_to_minutes "PT1H0M45S" = 61 ∧
    iso8601_duration_to_minutes "" = 0 ∧
    ∀ d : String,
      (∀ h m s : Nat, parsePTpy d = some (h, m, s) →
        iso8601_duration_to_minutes d = h * 60 + m + (if 30 ≤ s then 1 else 0)) ∧
      (parsePTpy d = none → iso8601_duration_to_minutes d = 0) := by
  refine ⟨by decide, by decide, by decide, by decide, by decide, fun d => ⟨?_, ?_⟩⟩
  · intro h m s hp
    rw [iso_eq_parsePTpy, hp]
  · intro hp
    rw [iso_eq_parsePTpy, hp]

/-- C5 (witness): the amended theorem applied at two concrete inputs, one
well-formed and one malformed. -/
theorem C5_amended_duration_witness :
    iso8601_duration_to_minutes "PT1H2M30S" =
      1 * 60 + 2 + (if 30 ≤ 30 then 1 else 0) ∧
    iso8601_duration_to_minutes "1h45m" = 0 :=
  ⟨(C5_amended_duration.2.2.2.2.2 "PT1H2M30S").1 1 2 30 (by decide),
   (C5_amended_duration.2.2.2.2.2 "1h45m").2 (by decide)⟩

/-- C4 (counterexample): a candidate whose identifier has twelve characters
(eleven class characters and a trailing newline) fails the claim's "exactly
11 characters" format check, yet `build_item_from_video` accepts it, because
the `$` of `YT_ID_RE` also matches just before a final newline. -/
theorem C4_counterexample :
    (build_item_from_video envNone vidNl).isSome = true ∧ ¬ specIdOk vidNl.id := by
  refine ⟨by decide, by decide⟩

/-- C4 (amended): `build_item_from_video` returns `none` exactly when the
identifier fails the code's anchored pattern (eleven characters drawn from
alphanumerics plus underscore and hyphen, optionally followed by one trailing
newline), or the stripped title is empty, or the title matches the
case-insensitive whole-word `documentary` pattern, or the parsed duration is
below 75 minutes; validation is all-or-nothing, and in particular a
well-formed 74-minute candidate is rejected while the same candidate with 75
minutes is accepted. -/
theorem C4_amended_validator :
    (∀ env v, build_item_from_video env v = none ↔
      (ytIdOk v.id = false ∨ strippedTitle v = "" ∨
       exclMatches (strippedTitle v) = true ∨ minutesOf v < MIN_MINUTES)) ∧
    build_item_from_video envNone
      ⟨"abcdefghijk", some ⟨some "Great War Saga", none⟩, some "PT1H14M"⟩ = none ∧
    (build_item_from_video envNone
      ⟨"abcdefghijk", some ⟨some "Great War Saga", none⟩, some "PT1H15M"⟩).isSome
      = true := by
  refine ⟨build_item_none_iff, by decide, by decide⟩

/-- C6: enrichment failure never discards a validated candidate.  Whatever
the lookup environment answers, an item is produced; when the cleaned title
is empty the TMDB search is skipped outright (the result is the plain item,
independent of the TMDB oracles); when the search misses, or when a hit's
detail record has every field missing, the item has empty year, director,
leads and awards and its poster falls back to the candidate's own best
thumbnail (`plainItem` is exactly that degraded item). -/
theorem C6_enrichment_never_discards :
    ∀ env v, ytIdOk v.id = true → strippedTitle v ≠ "" →
      exclMatches (strippedTitle v) = false → MIN_MINUTES ≤ minutesOf v →
      (∃ it, build_item_from_video env v = some it) ∧
      (clean_title_for_tmdb (strippedTitle v) = "" →
        build_item_from_video env v =
          some (plainItem (strippedTitle v) (snipOf v) v.id)) ∧
      (env.tmdbSearch (clean_title_for_tmdb (strippedTitle v)) = none →
        build_item_from_video env v =
          some (plainItem (strippedTitle v) (snipOf v) v.id)) ∧
      (∀ i : Int, hitOf env v = some ⟨some i⟩ → i ≠ 0 →
        env.tmdbDetails i = ⟨none, none, none, none, none, none⟩ →
        build_item_from_video env v =
          some (plainItem (strippedTitle v) (snipOf v) v.id)) := by
  intro env v h1 h2 h3 h4
  refine ⟨build_item_isSome env v h1 h2 h3 h4, ?_, ?_, ?_⟩
  · intro hc
    rw [build_item_eq env v h1 h2 h3 h4,
      show hitOf env v = none from by unfold hitOf; rw [if_pos hc]]
  · intro hs
    have hhit : hitOf env v = none := by
      unfold hitOf
      split_ifs with hc
      · rfl
      · exact hs
    rw [build_item_eq env v h1 h2 h3 h4, hhit]
  · intro i hhit hi hd
    rw [build_item_eq env v h1 h2 h3 h4, hhit]
    dsimp only
    rw [if_neg hi, hd]
    rfl

/-- C6 (witness): the theorem applied at three concrete inputs covering the
skipped-lookup, missed-search and empty-details branches. -/
theorem C6_enrichment_never_discards_witness :
    build_item_from_video envNone vidHD =
      some (plainItem (strippedTitle vidHD) (snipOf vidHD) vidHD.id) ∧
    build_item_from_video envNone vidW =
      some (plainItem (strippedTitle vidW) (snipOf vidW) vidW.id) ∧
    build_item_from_video envDet vidW =
      some (plainItem (strippedTitle vidW) (snipOf vidW) vidW.id) :=
  ⟨(C6_enrichment_never_discards envNone vidHD (by decide) (by decide)
      (by decide) (by decide)).2.1 (by decide),
   (C6_enrichment_never_discards envNone vidW (by decide) (by decide)
      (by decide) (by decide)).2.2.1 rfl,
   (C6_enrichment_never_discards envDet vidW (by decide) (by decide)
      (by decide) (by decide)).2.2.2 5 (by decide) (by decide) rfl⟩

/-- C7 (counterexample): when the TMDB detail lookup returns a canonical
title, it supersedes the raw title with no re-check, so a produced item's
title can match the exclusion pattern — refuting the claimed invariant. -/
theorem C7_counterexample :
    build_item_from_video envDoc vidW =
      some ⟨"The Documentary", "", "", [], "", "abcdefghijk", []⟩ ∧
    exclMatches "The Documentary" = true := by
  refine ⟨by decide, by decide⟩

/-- C7 (amended): every produced item has a non-empty title, and the raw
stripped title never matches the exclusion pattern; whenever no canonical
title is adopted (no TMDB hit is considered, the hit's id is falsy, or the
detail record has no truthy title) the item keeps the raw title, which
therefore cannot match the pattern — and an adopted canonical title from
the detail lookup supersedes the raw title without a re-check and may
match it. -/
theorem C7_amended_title :
    ∀ env v it, build_item_from_video env v = some it →
      it.title ≠ "" ∧ exclMatches (strippedTitle v) = false ∧
      (canonicalTitle env v = none →
        it.title = strippedTitle v ∧ exclMatches it.title = false) ∧
      (∀ tc, canonicalTitle env v = some tc → it.title = tc) := by
  intro env v it h
  obtain ⟨h1, h2, h3, h4⟩ := build_item_valid env v it h
  rw [build_item_eq env v h1 h2 h3 h4] at h
  rcases hh : hitOf env v with _ | hit <;> rw [hh] at h <;> dsimp only at h
  · cases h
    have hcan : canonicalTitle env v = none := by
      unfold canonicalTitle
      rw [hh]
    refine ⟨h2, h3, fun _ => ⟨rfl, h3⟩, fun tc htc => ?_⟩
    rw [hcan] at htc
    exact Option.noConfusion htc
  · rcases hid : hit.id with _ | i <;> rw [hid] at h <;> dsimp only at h
    · cases h
      have hcan : canonicalTitle env v = none := by
        unfold canonicalTitle
        rw [hh]
        dsimp only
        rw [hid]
      refine ⟨h2, h3, fun _ => ⟨rfl, h3⟩, fun tc htc => ?_⟩
      rw [hcan] at htc
      exact Option.noConfusion htc
    · by_cases hi : i = 0
      · rw [if_pos hi] at h
        cases h
        have hcan : canonicalTitle env v = none := by
          unfold canonicalTitle
          rw [hh]
          dsimp only
          rw [hid]
          dsimp only
          rw [if_pos hi]
        refine ⟨h2, h3, fun _ => ⟨rfl, h3⟩, fun tc htc => ?_⟩
        rw [hcan] at htc
        exact Option.noConfusion htc
      · rw [if_neg hi] at h
        cases h
        have hcanEq : canonicalTitle env v =
            (match (env.tmdbDetails i).title with
             | some t => if t = "" then none else some t
             | none => none) := by
          unfold canonicalTitle
          rw [hh]
          dsimp only
          rw [hid]
          dsimp only
          rw [if_neg hi]
        have henr : (enrichedItem env (strippedTitle v) (snipOf v) v.id
            (env.tmdbDetails i)).title =
            (match (env.tmdbDetails i).title with
             | some t => if t = "" then strippedTitle v else t
             | none => strippedTitle v) := rfl
        rcases hdt : (env.tmdbDetails i).title with _ | t <;>
          rw [hdt] at hcanEq henr <;> dsimp only at hcanEq henr
        · refine ⟨by rw [henr]; exact h2, h3, fun _ => ⟨henr, by rw [henr]; exact h3⟩,
            fun tc htc => ?_⟩
          rw [hcanEq] at htc
          exact Option.noConfusion htc
        · by_cases ht : t = ""
          · rw [if_pos ht] at hcanEq henr
            refine ⟨by rw [henr]; exact h2, h3, fun _ => ⟨henr, by rw [henr]; exact h3⟩,
              fun tc htc => ?_⟩
            rw [hcanEq] at htc
            exact Option.noConfusion htc
          · rw [if_neg ht] at hcanEq henr
            refine ⟨by rw [henr]; exact ht, h3, fun hnone => ?_,
              fun tc htc => ?_⟩
            · rw [hcanEq] at hnone
              exact absurd hnone (by simp)
            · rw [hcanEq] at htc
              rw [henr]
              exact Option.some.inj htc

/-- C7 (witness): the amended theorem applied at two concrete inputs — a
hit whose detail record has no title, where the raw title is kept and the
exclusion still fails, and the superseding environment, where the adopted
canonical title (here matching the exclusion pattern, which the amended
claim permits) becomes the non-empty item title. -/
theorem C7_amended_title_witness :
    (plainItem (strippedTitle vidW) (snipOf vidW) vidW.id).title ≠ "" ∧
    ((plainItem (strippedTitle vidW) (snipOf vidW) vidW.id).title =
        strippedTitle vidW ∧
      exclMatches (plainItem (strippedTitle vidW) (snipOf vidW)
        vidW.id).title = false) ∧
    (⟨"The Documentary", "", "", [], "", "abcdefghijk", []⟩ : Item).title =
      "The Documentary" :=
  ⟨(C7_amended_title envDet vidW _ (by decide)).1,
   (C7_amended_title envDet vidW _ (by decide)).2.2.1 (by decide),
   (C7_amended_title envDoc vidW _ (by decide)).2.2.2 "The Documentary"
     (by decide)⟩

/-- C8 (counterexample): the code slices the cast to its first two entries
before dropping empty names, so an empty-named first billing leaves only one
lead, while the claim's "first two entries with a non-empty name, skipping
empty-named ones" selects two. -/
theorem C8_counterexample :
    build_item_from_video envCast vidW =
      some ⟨"Great War Saga", "", "", ["Alice Alpha"], "", "abcdefghijk", []⟩ ∧
    specLeads castCE = ["Alice Alpha", "Bob Beta"] ∧
    (["Alice Alpha"] : List String) ≠ ["Alice Alpha", "Bob Beta"] := by
  refine ⟨by decide, by decide, by decide⟩

/-- C8 (amended): the leads of an enriched item are the non-empty names
among the first two billed cast entries, in listed order — an empty-named
entry within the first two is dropped, not skipped over in favour of a later
entry. -/
theorem C8_amended_leads :
    ∀ env v it (i : Int), build_item_from_video env v = some it →
      hitOf env v = some ⟨some i⟩ → i ≠ 0 →
      it.leads =
        (((env.tmdbDetails i).cast.getD []).take 2).filterMap truthyName := by
  intro env v it i h hh hi
  obtain ⟨h1, h2, h3, h4⟩ := build_item_valid env v it h
  rw [build_item_eq env v h1 h2 h3 h4, hh] at h
  dsimp only at h
  rw [if_neg hi] at h
  cases h
  show leadsOf ((env.tmdbDetails i).cast.getD []) = _
  unfold leadsOf
  exact List.take_of_length_le (Nat.le_trans (List.length_filterMap_le _ _)
    (by simp))

/-- C8 (witness): the amended theorem applied at the counterexample
environment. -/
theorem C8_amended_leads_witness :
    (⟨"Great War Saga", "", "", ["Alice Alpha"], "", "abcdefghijk",
      []⟩ : Item).leads =
      (((envCast.tmdbDetails 3).cast.getD []).take 2).filterMap truthyName :=
  C8_amended_leads envCast vidW _ 3 (by decide) (by decide) (by decide)

theorem pickThumbGo_eq (thumbs : List (String × Option String))
    (ks : List String) :
    pickThumbGo thumbs ks = (ks.findSome? (thumbPick thumbs)).getD "" := by
  induction ks with
  | nil => rfl
  | cons k ks ih =>
    simp only [pickThumbGo, List.findSome?_cons]
    unfold thumbPick
    rcases thumbUrl thumbs k with _ | u?
    · exact ih
    · rcases u? with _ | u
      · exact ih
      · dsimp only
        by_cases hu : u = ""
        · rw [if_pos hu, if_pos hu]
          exact ih
        · rw [if_neg hu, if_neg hu]
          rfl

/-- C10: `pick_best_thumbnail` is total and returns the url of the first
present variant in the fixed priority order, or the empty string when no
recognized variant has a url; consequently, when the detail lookup yields no
poster path (or no hit at all is considered) and no variant has a url, the
produced item's `posterUrl` is the empty string. -/
theorem C10_poster_fallback :
    (∀ snip, pick_best_thumbnail snip = (firstThumb snip).getD "") ∧
    (∀ snip, firstThumb snip = none → pick_best_thumbnail snip = "") ∧
    (∀ env v it (i : Int), build_item_from_video env v = some it →
      hitOf env v = some ⟨some i⟩ → i ≠ 0 →
      (env.tmdbDetails i).poster_path = none → firstThumb (snipOf v) = none →
      it.posterUrl = "") ∧
    (∀ env v it, build_item_from_video env v = some it →
      hitOf env v = none → firstThumb (snipOf v) = none →
      it.posterUrl = "") := by
  have hpick : ∀ snip, pick_best_thumbnail snip = (firstThumb snip).getD "" :=
    fun snip => pickThumbGo_eq _ thumbKeys
  have hnone : ∀ snip, firstThumb snip = none →
      pick_best_thumbnail snip = "" := by
    intro snip hft
    rw [hpick, hft]
    rfl
  refine ⟨hpick, hnone, ?_, ?_⟩
  · intro env v it i h hh hi hp hft
    obtain ⟨h1, h2, h3, h4⟩ := build_item_valid env v it h
    rw [build_item_eq env v h1 h2 h3 h4, hh] at h
    dsimp only at h
    rw [if_neg hi] at h
    cases h
    show (enrichedItem env (strippedTitle v) (snipOf v) v.id
      (env.tmdbDetails i)).posterUrl = ""
    unfold enrichedItem
    dsimp only
    rw [hp]
    show (if posterOf none = "" then pick_best_thumbnail (snipOf v)
      else posterOf none) = ""
    have hpo : posterOf none = "" := rfl
    rw [hpo, if_pos rfl]
    exact hnone _ hft
  · intro env v it h hh hft
    obtain ⟨h1, h2, h3, h4⟩ := build_item_valid env v it h
    rw [build_item_eq env v h1 h2 h3 h4, hh] at h
    cases h
    exact hnone _ hft

/-- C10 (witness): the poster fallback at concrete inputs — a hit whose
detail record lacks a poster path, and a miss — with a candidate that has no
thumbnails. -/
theorem C10_poster_fallback_witness :
    (⟨"Great War Saga", "", "", [], "", "abcdefghijk", []⟩ : Item).posterUrl
      = "" ∧
    (⟨"Great War Saga", "", "", [], "", "abcdefghijk", []⟩ : Item).posterUrl
      = "" :=
  ⟨(C10_poster_fallback.2.2.1) envDet vidW _ 5 (by decide) (by decide)
      (by decide) (by decide) (by decide),
   (C10_poster_fallback.2.2.2) envNone vidW _ (by decide) (by decide)
      (by decide)⟩

theorem lexLe_total : ∀ as bs : List Char, lexLe as bs = true ∨ lexLe bs as = true := by
  intro as
  induction as with
  | nil => intro bs; exact Or.inl rfl
  | cons a as ih =>
    intro bs
    cases bs with
    | nil => exact Or.inr rfl
    | cons b bs =>
      simp only [lexLe]
      rcases Nat.lt_trichotomy a.toNat b.toNat with h | h | h
      · left
        rw [if_pos h]
      · rw [if_neg (by omega), if_neg (by omega), if_neg (by omega),
          if_neg (by omega)]
        exact ih bs
      · right
        rw [if_pos h]

theorem lexLe_trans : ∀ as bs cs : List Char, lexLe as bs = true →
    lexLe bs cs = true → lexLe as cs = true := by
  intro as
  induction as with
  | nil => intro bs cs _ _; rfl
  | cons a as ih =>
    intro bs cs hab hbc
    cases bs with
    | nil => simp [lexLe] at hab
    | cons b bs =>
      cases cs with
      | nil => simp [lexLe] at hbc
      | cons c cs =>
        simp only [lexLe] at hab hbc ⊢
        rcases Nat.lt_trichotomy a.toNat b.toNat with h1 | h1 | h1
        · rcases Nat.lt_trichotomy b.toNat c.toNat with h2 | h2 | h2
          · rw [if_pos (by omega)]
          · rw [if_pos (by omega)]
          · rw [if_neg (by omega), if_pos (by omega)] at hbc
            exact absurd hbc (by simp)
        · rcases Nat.lt_trichotomy b.toNat c.toNat with h2 | h2 | h2
          · rw [if_pos (by omega)]
          · rw [if_neg (by omega), if_neg (by omega)] at hab
            rw [if_neg (by omega), if_neg (by omega)] at hbc
            rw [if_neg (by omega), if_neg (by omega)]
            exact ih bs cs hab hbc
          · rw [if_neg (by omega), if_pos (by omega)] at hbc
            exact absurd hbc (by simp)
        · rw [if_neg (by omega), if_pos (by omega)] at hab
          exact absurd hab (by simp)

theorem strLe_total (a b : String) : strLe a b = true ∨ strLe b a = true :=
  lexLe_total a.data b.data

theorem strLe_trans (a b c : String) (h1 : strLe a b = true)
    (h2 : strLe b c = true) : strLe a c = true :=
  lexLe_trans a.data b.data c.data h1 h2

theorem mem_dedupGo (ks l : List String) (y : String) :
    y ∈ dedupGo ks l ↔ y ∈ l ∧ y ∉ ks := by
  induction l generalizing ks with
  | nil => simp [dedupGo]
  | cons x xs ih =>
    simp only [dedupGo]
    by_cases hx : x ∈ ks
    · rw [if_pos hx, ih ks]
      simp only [List.mem_cons]
      constructor
      · rintro ⟨hy, hks⟩
        exact ⟨Or.inr hy, hks⟩
      · rintro ⟨hy | hy, hks⟩
        · exact absurd (hy ▸ hx) hks
        · exact ⟨hy, hks⟩
    · rw [if_neg hx]
      simp only [List.mem_cons, ih (x :: ks)]
      constructor
      · rintro (rfl | ⟨hy, hks⟩)
        · exact ⟨Or.inl rfl, hx⟩
        · exact ⟨Or.inr hy, fun hk => hks (Or.inr hk)⟩
      · rintro ⟨rfl | hy, hks⟩
        · exact Or.inl rfl
        · by_cases hyx : y = x
          · exact Or.inl hyx
          · refine Or.inr ⟨hy, ?_⟩
            rintro (h | h)
            · exact hyx h
            · exact hks h

theorem nodup_dedupGo (ks l : List String) : (dedupGo ks l).Nodup := by
  induction l generalizing ks with
  | nil => simp [dedupGo]
  | cons x xs ih =>
    simp only [dedupGo]
    by_cases hx : x ∈ ks
    · rw [if_pos hx]
      exact ih ks
    · rw [if_neg hx]
      rw [List.nodup_cons]
      refine ⟨fun hmem => ?_, ih (x :: ks)⟩
      rw [mem_dedupGo] at hmem
      exact hmem.2 (List.mem_cons_self x ks)

/-- C9: the award resolver returns the empty list on an empty film
identifier without consulting the environment; otherwise (on any successful
response) its result is ascending, duplicate-free, and contains exactly the
allow-listed labels of the returned award identifiers. -/
theorem C9_award_resolver :
    (∀ env, wikidata_awards_for_film env "" = []) ∧
    (∀ env imdb bindings, imdb ≠ "" → env.wikidata imdb = some bindings →
      (wikidata_awards_for_film env imdb).Sorted
        (fun a b => strLe a b = true) ∧
      (wikidata_awards_for_film env imdb).Nodup ∧
      (∀ x, x ∈ wikidata_awards_for_film env imdb ↔
        ∃ b ∈ bindings, awardLabel (lastSegment b) = some x)) := by
  constructor
  · intro env
    rfl
  · intro env imdb bindings hne hb
    have hw : wikidata_awards_for_film env imdb =
        sortStrings (dedupFirst
          (bindings.filterMap (fun v => awardLabel (lastSegment v)))) := by
      unfold wikidata_awards_for_film
      rw [if_neg hne, hb]
    rw [hw]
    refine ⟨@List.sorted_insertionSort String (fun a b => strLe a b = true)
      (fun a b => instDecidableEqBool (strLe a b) true)
      ⟨strLe_total⟩ ⟨fun a b c => strLe_trans a b c⟩ _, ?_, ?_⟩
    · exact (List.perm_insertionSort _ _).nodup_iff.mpr
        (nodup_dedupGo [] _)
    · intro x
      rw [sortStrings, (List.perm_insertionSort _ _).mem_iff, dedupFirst,
        mem_dedupGo]
      simp [List.mem_filterMap]

/-- C9 (witness): the resolver applied to the `\x7bA, B, A, C\x7d` stub: the
result is the two allow-listed labels, deduplicated and ascending. -/
theorem C9_award_resolver_witness :
    wikidata_awards_for_film envAw "tt0099999" =
      ["Oscar Best Director", "Oscar Best Picture"] ∧
    wikidata_awards_for_film envNone "" = [] ∧
    (wikidata_awards_for_film envAw "tt0099999").Sorted
      (fun a b => strLe a b = true) ∧
    (wikidata_awards_for_film envAw "tt0099999").Nodup :=
  ⟨by decide, C9_award_resolver.1 envNone,
   (C9_award_resolver.2 envAw "tt0099999" _ (by decide) rfl).1,
   (C9_award_resolver.2 envAw "tt0099999" _ (by decide) rfl).2.1⟩

theorem processVids_le (env : Env) :
    ∀ (vids : List Video) (seen : List String) (items : List Item),
      items.length < 4 → (processVids env vids seen items).2.length ≤ 4 := by
  intro vids
  induction vids with
  | nil => intro seen items h; exact Nat.le_of_lt (by simpa [processVids] using h)
  | cons v rest ih =>
    intro seen items h
    simp only [processVids]
    split
    · exact ih seen items h
    · split
      · exact ih seen items h
      · split
        · simp only []
          simp at h ⊢
          omega
        · next hlen =>
          exact ih _ _ (by simp at hlen ⊢; omega)

theorem fillPages_le (env : Env) (q order : String) :
    ∀ (fuel : Nat) (tok : Option String) (seen : List String)
      (items : List Item), items.length < 4 →
      (fillPages env q order fuel tok seen items).2.1.length ≤ 4 := by
  intro fuel
  induction fuel with
  | zero => intro tok seen items h; exact Nat.le_of_lt h
  | succ fuel ih =>
    intro tok seen items h
    simp only [fillPages]
    split
    · split
      · exact Nat.le_of_lt h
      · exact ih _ seen items h
    · split
      · exact processVids_le env _ seen items h
      · next hnotle =>
        split
        · exact processVids_le env _ seen items h
        · exact ih _ _ _ (Nat.lt_of_not_le (by simpa using hnotle))

theorem fillQueries_le (env : Env) (order : String) :
    ∀ (qs : List String) (seen : List String) (items : List Item),
      items.length < 4 →
      (fillQueries env order qs seen items).2.1.length ≤ 4 := by
  intro qs
  induction qs with
  | nil => intro seen items h; exact Nat.le_of_lt h
  | cons q rest ih =>
    intro seen items h
    simp only [fillQueries]
    split
    · exact fillPages_le env q order 4 none seen items h
    · next hnotle =>
      exact ih _ _ (Nat.lt_of_not_le (by simpa using hnotle))

theorem fill_row_le (env : Env) (row order : String) (seen : List String) :
    (fill_row env row order seen).2.1.length ≤ 4 :=
  fillQueries_le env order _ seen [] (by simp)

theorem fbVids_le (env : Env) :
    ∀ (vids : List Video) (seen : List String) (items : List Item),
      items.length ≤ 4 → (fbVids env vids seen items).2.length ≤ 4 := by
  intro vids
  induction vids with
  | nil => intro seen items h; exact h
  | cons v rest ih =>
    intro seen items h
    simp only [fbVids]
    split
    · exact h
    · next hnotle =>
      split
      · exact ih seen items h
      · split
        · exact ih seen items h
        · exact ih _ _ (by simp at hnotle ⊢; omega)

theorem fallbackPass_le (env : Env) (order : String) :
    ∀ (pool : List String) (seen : List String) (items : List Item),
      items.length ≤ 4 →
      (fallbackPass env order pool seen items).2.length ≤ 4 := by
  intro pool
  induction pool with
  | nil => intro seen items h; exact h
  | cons fb rest ih =>
    intro seen items h
    simp only [fallbackPass]
    split
    · exact h
    · exact ih _ _ (fbVids_le env _ _ _ h)

theorem processRow_le (env : Env) (row : String) (seen : List String) :
    (processRow env row seen).2.length ≤ 4 := by
  unfold processRow
  dsimp only
  split
  · exact fallbackPass_le env _ fallback_pool _ _ (fill_row_le env row _ seen)
  · exact fill_row_le env row _ seen

theorem SeenOk_nil : SeenOk [] [] := ⟨List.nodup_nil, by simp⟩

theorem SeenOk_mono {seen seen' : List String} {items : List Item}
    (hsub : ∀ x ∈ seen, x ∈ seen') (h : SeenOk seen items) :
    SeenOk seen' items :=
  ⟨h.1, fun it hit => hsub _ (h.2 it hit)⟩

theorem SeenOk_snoc {seen : List String} {items : List Item} {it : Item}
    (h : SeenOk seen items) (hnew : it.youtubeId ∉ seen) :
    SeenOk (it.youtubeId :: seen) (items ++ [it]) := by
  constructor
  · rw [List.map_append, List.nodup_append]
    refine ⟨h.1, by simp, ?_⟩
    intro x hx
    simp only [List.map_cons, List.map_nil, List.mem_cons,
      List.not_mem_nil, or_false]
    rintro rfl
    rcases List.mem_map.mp hx with ⟨it2, hit2, hid⟩
    exact hnew (hid ▸ h.2 it2 hit2)
  · intro it2 hit2
    rcases List.mem_append.mp hit2 with h2 | h2
    · exact List.mem_cons_of_mem _ (h.2 it2 h2)
    · rw [List.mem_singleton.mp h2]
      exact List.mem_cons_self _ _

theorem processVids_inv (env : Env) :
    ∀ (vids : List Video) (seen : List String) (items G : List Item),
      SeenOk seen (G ++ items) →
      SeenOk (processVids env vids seen items).1
          (G ++ (processVids env vids seen items).2) ∧
        ∀ x ∈ seen, x ∈ (processVids env vids seen items).1 := by
  intro vids
  induction vids with
  | nil => intro seen items G h; exact ⟨h, fun x hx => hx⟩
  | cons v rest ih =>
    intro seen items G h
    simp only [processVids]
    split
    · exact ih seen items G h
    · next hseen =>
      split
      · exact ih seen items G h
      · next it hit =>
        have hid : it.youtubeId = v.id := build_item_youtubeId env v it hit
        have hnew : it.youtubeId ∉ seen := hid ▸ hseen
        have h2 : SeenOk (it.youtubeId :: seen) ((G ++ items) ++ [it]) :=
          SeenOk_snoc h hnew
        rw [List.append_assoc] at h2
        rw [← hid]
        split
        · exact ⟨h2, fun x hx => List.mem_cons_of_mem _ hx⟩
        · have := ih (it.youtubeId :: seen) (items ++ [it]) G h2
          exact ⟨this.1, fun x hx =>
            this.2 x (List.mem_cons_of_mem _ hx)⟩

theorem fillPages_inv (env : Env) (q order : String) :
    ∀ (fuel : Nat) (tok : Option String) (seen : List String)
      (items G : List Item), SeenOk seen (G ++ items) →
      SeenOk (fillPages env q order fuel tok seen items).1
          (G ++ (fillPages env q order fuel tok seen items).2.1) ∧
        ∀ x ∈ seen, x ∈ (fillPages env q order fuel tok seen items).1 := by
  intro fuel
  induction fuel with
  | zero => intro tok seen items G h; exact ⟨h, fun x hx => hx⟩
  | succ fuel ih =>
    intro tok seen items G h
    simp only [fillPages]
    split
    · split
      · exact ⟨h, fun x hx => hx⟩
      · exact ih _ seen items G h
    · have hpv := processVids_inv env
        (env.videos ((collectNewIds (env.search q order tok 25).items
          seen).take 50)) seen items G h
      split
      · exact hpv
      · split
        · exact hpv
        · next t heq =>
          have := ih (some t) _ _ G hpv.1
          exact ⟨this.1, fun x hx => this.2 x (hpv.2 x hx)⟩

theorem fillQueries_inv (env : Env) (order : String) :
    ∀ (qs : List String) (seen : List String) (items G : List Item),
      SeenOk seen (G ++ items) →
      SeenOk (fillQueries env order qs seen items).1
          (G ++ (fillQueries env order qs seen items).2.1) ∧
        ∀ x ∈ seen, x ∈ (fillQueries env order qs seen items).1 := by
  intro qs
  induction qs with
  | nil => intro seen items G h; exact ⟨h, fun x hx => hx⟩
  | cons q rest ih =>
    intro seen items G h
    simp only [fillQueries]
    have hfp := fillPages_inv env q order 4 none seen items G h
    split
    · exact hfp
    · have := ih _ _ G hfp.1
      exact ⟨this.1, fun x hx => this.2 x (hfp.2 x hx)⟩

theorem fill_row_inv (env : Env) (row order : String) (seen : List String)
    (G : List Item) (h : SeenOk seen G) :
    SeenOk (fill_row env row order seen).1
        (G ++ (fill_row env row order seen).2.1) ∧
      ∀ x ∈ seen, x ∈ (fill_row env row order seen).1 :=
  fillQueries_inv env order _ seen [] G (by simpa using h)

theorem fbVids_inv (env : Env) :
    ∀ (vids : List Video) (seen : List String) (items G : List Item),
      SeenOk seen (G ++ items) →
      SeenOk (fbVids env vids seen items).1
          (G ++ (fbVids env vids seen items).2) ∧
        ∀ x ∈ seen, x ∈ (fbVids env vids seen items).1 := by
  intro vids
  induction vids with
  | nil => intro seen items G h; exact ⟨h, fun x hx => hx⟩
  | cons v rest ih =>
    intro seen items G h
    simp only [fbVids]
    split
    · exact ⟨h, fun x hx => hx⟩
    · split
      · exact ih seen items G h
      · next hseen =>
        split
        · exact ih seen items G h
        · next it hit =>
          have hid : it.youtubeId = v.id := build_item_youtubeId env v it hit
          have hnew : it.youtubeId ∉ seen := hid ▸ hseen
          have h2 : SeenOk (it.youtubeId :: seen) ((G ++ items) ++ [it]) :=
            SeenOk_snoc h hnew
          rw [List.append_assoc] at h2
          rw [← hid]
          have := ih (it.youtubeId :: seen) (items ++ [it]) G h2
          exact ⟨this.1, fun x hx => this.2 x (List.mem_cons_of_mem _ hx)⟩

theorem fallbackPass_inv (env : Env) (order : String) :
    ∀ (pool : List String) (seen : List String) (items G : List Item),
      SeenOk seen (G ++ items) →
      SeenOk (fallbackPass env order pool seen items).1
          (G ++ (fallbackPass env order pool seen items).2) ∧
        ∀ x ∈ seen, x ∈ (fallbackPass env order pool seen items).1 := by
  intro pool
  induction pool with
  | nil => intro seen items G h; exact ⟨h, fun x hx => hx⟩
  | cons fb rest ih =>
    intro seen items G h
    simp only [fallbackPass]
    split
    · exact ⟨h, fun x hx => hx⟩
    · have hfb := fbVids_inv env
        (env.videos ((collectNewIds (env.search fb order none 25).items
          seen).take 50)) seen items G h
      have := ih _ _ G hfb.1
      exact ⟨this.1, fun x hx => this.2 x (hfb.2 x hx)⟩

theorem processRow_inv (env : Env) (row : String) (seen : List String)
    (G : List Item) (h : SeenOk seen G) :
    SeenOk (processRow env row seen).1
        (G ++ (processRow env row seen).2) ∧
      ∀ x ∈ seen, x ∈ (processRow env row seen).1 := by
  unfold processRow
  dsimp only
  have hfr := fill_row_inv env row (orderFor row) seen G h
  split
  · have := fallbackPass_inv env (orderFor row) fallback_pool _ _ G hfr.1
    exact ⟨this.1, fun x hx => this.2 x (hfr.2 x hx)⟩
  · exact hfr

theorem runRows_inv (env : Env) :
    ∀ (rows : List String) (seen : List String) (G : List Item)
      (seenF : List String) (out : List Item), SeenOk seen G →
      runRows env rows seen = Except.ok (seenF, out) →
      SeenOk seenF (G ++ out) := by
  intro rows
  induction rows with
  | nil =>
    intro seen G seenF out h hrun
    simp only [runRows] at hrun
    cases hrun
    simpa using h
  | cons row rest ih =>
    intro seen G seenF out h hrun
    simp only [runRows] at hrun
    split at hrun
    · exact absurd hrun (by simp)
    · have hpr := processRow_inv env row seen G h
      split at hrun
      · exact absurd hrun (by simp)
      · next seenF2 tail heq =>
        cases hrun
        have := ih _ _ _ _ hpr.1 heq
        rwa [List.append_assoc] at this

theorem fbVids_seen_mono (env : Env) :
    ∀ (vids : List Video) (seen : List String) (items : List Item),
      ∀ x ∈ seen, x ∈ (fbVids env vids seen items).1 := by
  intro vids
  induction vids with
  | nil => intro seen items x hx; exact hx
  | cons v rest ih =>
    intro seen items x hx
    simp only [fbVids]
    split
    · exact hx
    · split
      · exact ih seen items x hx
      · split
        · exact ih seen items x hx
        · exact ih _ _ x (List.mem_cons_of_mem _ hx)

theorem fallbackPass_seen_mono (env : Env) (order : String) :
    ∀ (pool : List String) (seen : List String) (items : List Item),
      ∀ x ∈ seen, x ∈ (fallbackPass env order pool seen items).1 := by
  intro pool
  induction pool with
  | nil => intro seen items x hx; exact hx
  | cons fb rest ih =>
    intro seen items x hx
    simp only [fallbackPass]
    split
    · exact hx
    · exact ih _ _ x (fbVids_seen_mono env _ seen items x hx)

/-- C2: dedup across the whole run.  On every completed (successful) run the
flattened item list carries pairwise distinct source identifiers; in the
primary filler the final seen set records every accepted item's identifier
with the row's accepted identifiers pairwise distinct (`SeenOk`), and in
both the primary and the fallback pass the run-global seen set only grows. -/
theorem C2_run_global_dedup :
    (∀ env, match mainRun env with
      | Except.ok p => (p.items.map (fun it => it.youtubeId)).Nodup
      | Except.error _ => True) ∧
    (∀ env row order seen,
      SeenOk (fill_row env row order seen).1 (fill_row env row order seen).2.1 ∧
      ∀ x ∈ seen, x ∈ (fill_row env row order seen).1) ∧
    (∀ env order pool seen items,
      ∀ x ∈ seen, x ∈ (fallbackPass env order pool seen items).1) := by
  refine ⟨?_, ?_, ?_⟩
  · intro env
    rcases heq : runRows env ROW_TITLES [] with e | ⟨seenF, out⟩
    · simp [mainRun, heq]
    · have hinv := runRows_inv env ROW_TITLES [] [] seenF out SeenOk_nil heq
      simp only [mainRun, heq]
      simpa [SeenOk] using hinv.1
  · intro env row order seen
    have := fill_row_inv env row order seen [] ⟨by simp, by simp⟩
    exact ⟨by simpa using this.1, this.2⟩
  · exact fun env order pool seen items =>
      fallbackPass_seen_mono env order pool seen items

theorem runRows_cases (env : Env) :
    ∀ (rows : List String) (seen : List String),
      (∃ seenF out, runRows env rows seen = Except.ok (seenF, out) ∧
        Blocks rows.length out) ∨
      (∃ row n, row ∈ rows ∧ n < 4 ∧
        runRows env rows seen = Except.error (shortMsg row n)) := by
  intro rows
  induction rows with
  | nil => intro seen; exact Or.inl ⟨seen, [], rfl, rfl⟩
  | cons row rest ih =>
    intro seen
    have hr : runRows env (row :: rest) seen =
        if (processRow env row seen).2.length < 4 then
          Except.error (shortMsg row (processRow env row seen).2.length)
        else
          match runRows env rest (processRow env row seen).1 with
          | Except.error e => Except.error e
          | Except.ok (seenF, tail) =>
            Except.ok (seenF, (processRow env row seen).2 ++ tail) := rfl
    by_cases hlt : (processRow env row seen).2.length < 4
    · right
      exact ⟨row, (processRow env row seen).2.length, List.mem_cons_self _ _,
        hlt, by rw [hr, if_pos hlt]⟩
    · have h4 : (processRow env row seen).2.length = 4 :=
        Nat.le_antisymm (processRow_le env row seen) (Nat.not_lt.mp hlt)
      rcases ih (processRow env row seen).1 with
        ⟨seenF, out, hok, hbl⟩ | ⟨row2, n, hmem, hn, herr⟩
      · left
        refine ⟨seenF, (processRow env row seen).2 ++ out, ?_,
          (processRow env row seen).2, out, rfl, h4, hbl⟩
        rw [hr, if_neg hlt, hok]
      · right
        refine ⟨row2, n, List.mem_cons_of_mem _ hmem, hn, ?_⟩
        rw [hr, if_neg hlt, herr]

/-- C1: on every run, either all five rows fill and the payload's flattened
item list is five consecutive blocks of exactly four items, or the run
aborts (no payload, hence no artifact) with the `SystemExit` message naming
the first short row and the count it achieved (which is below four). -/
theorem C1_row_cardinality :
    ∀ env,
      (∃ p r1 r2 r3 r4 r5, mainRun env = Except.ok p ∧
        p.items = r1 ++ r2 ++ r3 ++ r4 ++ r5 ∧
        p.row_titles = ROW_TITLES ∧
        r1.length = 4 ∧ r2.length = 4 ∧ r3.length = 4 ∧ r4.length = 4 ∧
        r5.length = 4) ∨
      (∃ row n, row ∈ ROW_TITLES ∧ n < 4 ∧
        mainRun env = Except.error (shortMsg row n)) := by
  intro env
  rcases runRows_cases env ROW_TITLES [] with
    ⟨seenF, out, hok, hbl⟩ | ⟨row, n, hmem, hn, herr⟩
  · left
    have hbl5 : Blocks 5 out := hbl
    obtain ⟨r1, t1, ho1, hl1, hb1⟩ := hbl5
    obtain ⟨r2, t2, ho2, hl2, hb2⟩ := hb1
    obtain ⟨r3, t3, ho3, hl3, hb3⟩ := hb2
    obtain ⟨r4, t4, ho4, hl4, hb4⟩ := hb3
    obtain ⟨r5, t5, ho5, hl5, hb5⟩ := hb4
    have ht5 : t5 = [] := hb5
    refine ⟨⟨env.today, criteriaStr, ROW_TITLES, out⟩, r1, r2, r3, r4, r5,
      ?_, ?_, rfl, hl1, hl2, hl3, hl4, hl5⟩
    · unfold mainRun
      rw [hok]
    · show out = r1 ++ r2 ++ r3 ++ r4 ++ r5
      subst ht5
      rw [ho1, ho2, ho3, ho4, ho5]
      simp [List.append_assoc]
  · right
    refine ⟨row, n, hmem, hn, ?_⟩
    unfold mainRun
    rw [herr]

theorem fillPages_log (env : Env) (q order : String) :
    ∀ (fuel : Nat) (tok : Option String) (seen : List String)
      (items : List Item),
      (fillPages env q order fuel tok seen items).2.2.length ≤ fuel ∧
      ∀ r ∈ (fillPages env q order fuel tok seen items).2.2,
        r.maxResults = 25 := by
  intro fuel
  induction fuel with
  | zero => intro tok seen items; exact ⟨by simp [fillPages], by simp [fillPages]⟩
  | succ fuel ih =>
    intro tok seen items
    simp only [fillPages]
    split
    · split
      · constructor
        · simp
        · intro r hr
          rw [List.mem_singleton.mp hr]
      · next t heq =>
        have := ih (some t) seen items
        constructor
        · simpa using Nat.succ_le_succ this.1
        · intro r hr
          rcases List.mem_cons.mp hr with rfl | hr2
          · rfl
          · exact this.2 r hr2
    · split
      · constructor
        · simp
        · intro r hr
          rw [List.mem_singleton.mp hr]
      · split
        · constructor
          · simp
          · intro r hr
            rw [List.mem_singleton.mp hr]
        · next t heq =>
          have := ih (some t)
            (processVids env (env.videos ((collectNewIds
              (env.search q order tok 25).items seen).take 50)) seen items).1
            (processVids env (env.videos ((collectNewIds
              (env.search q order tok 25).items seen).take 50)) seen items).2
          constructor
          · simpa using Nat.succ_le_succ this.1
          · intro r hr
            rcases List.mem_cons.mp hr with rfl | hr2
            · rfl
            · exact this.2 r hr2

theorem fillQueries_log (env : Env) (order : String) :
    ∀ (qs : List String) (seen : List String) (items : List Item),
      (fillQueries env order qs seen items).2.2.length ≤ 4 * qs.length ∧
      ∀ r ∈ (fillQueries env order qs seen items).2.2, r.maxResults = 25 := by
  intro qs
  induction qs with
  | nil => intro seen items; exact ⟨by simp [fillQueries], by simp [fillQueries]⟩
  | cons qq rest ih =>
    intro seen items
    simp only [fillQueries]
    have hfp := fillPages_log env qq order 4 none seen items
    split
    · exact ⟨hfp.1.trans (by simp_arith), hfp.2⟩
    · have hrec := ih (fillPages env qq order 4 none seen items).1
        (fillPages env qq order 4 none seen items).2.1
      constructor
      · simp only [List.length_append]
        calc _ ≤ 4 + 4 * rest.length := Nat.add_le_add hfp.1 hrec.1
        _ = 4 * (rest.length + 1) := by ring
        _ = 4 * (qq :: rest).length := by simp
      · intro r hr
        rcases List.mem_append.mp hr with h | h
        · exact hfp.2 r h
        · exact hrec.2 r h

/-- C3: bounded, short-circuiting row fill.  The function is total (it is a
terminating Lean definition), its result never exceeds four items, a row
issues at most `4 * #queries` search requests — at most 16 for the 4-term
row pools — every request asks for 25 results; a page with no new candidate
ids and no continuation token ends the query term after its single request;
a page whose processing reaches four items ends the whole row fill with that
single request; and a query term that reaches four items skips all remaining
query terms. -/
theorem C3_bounded_row_fill :
    (∀ env row order seen, (env.shuffle (ROW_QUERIES row)).length ≤ 4 →
      (fill_row env row order seen).2.1.length ≤ 4 ∧
      (fill_row env row order seen).2.2.length ≤ 16 ∧
      ∀ r ∈ (fill_row env row order seen).2.2, r.maxResults = 25) ∧
    (∀ env (q order : String) fuel tok seen items,
      collectNewIds (env.search q order tok 25).items seen = [] →
      nextTok (env.search q order tok 25) = none →
      fillPages env q order (fuel + 1) tok seen items =
        (seen, items, [⟨q, order, tok, 25⟩])) ∧
    (∀ env (q order : String) fuel tok seen items,
      ((collectNewIds (env.search q order tok 25).items seen).take 50).isEmpty
        = false →
      4 ≤ (processVids env (env.videos ((collectNewIds
        (env.search q order tok 25).items seen).take 50)) seen items).2.length →
      fillPages env q order (fuel + 1) tok seen items =
        ((processVids env (env.videos ((collectNewIds
            (env.search q order tok 25).items seen).take 50)) seen items).1,
         (processVids env (env.videos ((collectNewIds
            (env.search q order tok 25).items seen).take 50)) seen items).2,
         [⟨q, order, tok, 25⟩])) ∧
    (∀ env (q order : String) qs seen items,
      4 ≤ (fillPages env q order 4 none seen items).2.1.length →
      fillQueries env order (q :: qs) seen items =
        fillPages env q order 4 none seen items) := by
  refine ⟨?_, ?_, ?_, ?_⟩
  · intro env row order seen hpool
    refine ⟨fill_row_le env row order seen, ?_,
      (fillQueries_log env order _ seen []).2⟩
    calc (fill_row env row order seen).2.2.length
        ≤ 4 * (env.shuffle (ROW_QUERIES row)).length :=
          (fillQueries_log env order _ seen []).1
      _ ≤ 16 := by omega
  · intro env q order fuel tok seen items hcol hnext
    simp only [fillPages, hcol]
    rw [show ((([] : List String)).take 50).isEmpty = true from rfl]
    simp only [if_true, hnext]
  · intro env q order fuel tok seen items hne h4
    simp only [fillPages]
    rw [if_neg (by simp [hne]), if_pos h4]
  · intro env q order qs seen items h4
    simp only [fillQueries]
    rw [if_pos h4]

/-- C3 (witness): the bounds on the `War` row, the abandon case on a query
with an empty page, the short-circuit case on the productive query, and the
skipping of the remaining query terms, all at `envC3`. -/
theorem C3_bounded_row_fill_witness :
    ((fill_row envC3 "War" "relevance" []).2.1.length ≤ 4 ∧
      (fill_row envC3 "War" "relevance" []).2.2.length ≤ 16 ∧
      ∀ r ∈ (fill_row envC3 "War" "relevance" []).2.2, r.maxResults = 25) ∧
    fillPages envC3 "empty query" "relevance" 4 none [] [] =
      ([], [], [⟨"empty query", "relevance", none, 25⟩]) ∧
    fillPages envC3 "war full movie" "relevance" 4 none [] [] =
      ((processVids envC3 (envC3.videos ((collectNewIds
          (envC3.search "war full movie" "relevance" none 25).items []).take
          50)) [] []).1,
       (processVids envC3 (envC3.videos ((collectNewIds
          (envC3.search "war full movie" "relevance" none 25).items []).take
          50)) [] []).2,
       [⟨"war full movie", "relevance", none, 25⟩]) ∧
    fillQueries envC3 "relevance" ["war full movie", "ww2 full movie"] [] [] =
      fillPages envC3 "war full movie" "relevance" 4 none [] [] :=
  ⟨C3_bounded_row_fill.1 envC3 "War" "relevance" [] (by decide),
   C3_bounded_row_fill.2.1 envC3 "empty query" "relevance" 3 none [] []
     (by decide) (by decide),
   C3_bounded_row_fill.2.2.1 envC3 "war full movie" "relevance" 3 none [] []
     (by decide) (by decide),
   C3_bounded_row_fill.2.2.2 envC3 "war full movie" "relevance"
     ["ww2 full movie"] [] [] (by decide)⟩

/-- C2 (witness): seen-set growth applied at concrete inputs for both the
primary filler and the fallback pass. -/
theorem C2_run_global_dedup_witness :
    "zzzzzzzzzzz" ∈ (fill_row envC3 "War" "relevance" ["zzzzzzzzzzz"]).1 ∧
    "zzzzzzzzzzz" ∈
      (fallbackPass envC3 "relevance" fallback_pool ["zzzzzzzzzzz"] []).1 :=
  ⟨(C2_run_global_dedup.2.1 envC3 "War" "relevance" ["zzzzzzzzzzz"]).2
      "zzzzzzzzzzz" (by decide),
   C2_run_global_dedup.2.2 envC3 "relevance" fallback_pool ["zzzzzzzzzzz"] []
      "zzzzzzzzzzz" (by decide)⟩
